import Mathlib

/-!
Verification of the 32-byte hash types of `shared/src/types/hash.rs`.

The Rust module defines:
* `Hash(pub [u8; 32])` — a fixed 32-byte hash value with byte-wise derived
  equality and map-key hashing, an uppercase-hex `Display`, a fallible
  `TryFrom<&[u8]>` constructor, a `sha256` digest constructor, and infallible
  conversions to/from the merkle-tree library's `H256` type;
* `HashString { inner: [u8; HASH_LENGTH * 2] }` — a 64-byte buffer of ASCII
  hex digits with a validating `TryFrom<&str>` parser, an all-zero `Default`,
  and a `Deref<Target = str>` view via `from_utf8_unchecked`.

Bytes are modelled as `Fin 256` (the values of Rust `u8`), byte slices as
`List Byte`, fixed-size arrays as lists with a length invariant, strings as
`List Char` (Rust `str::chars` iterates Unicode scalar values, which is what
`Char` is), and fallible constructors return `Except Error _`.
-/

/-- A Rust `u8` value. -/
abbrev Byte := Fin 256

/-- Rust `pub const HASH_LENGTH: usize = 32;` — the length of the transaction
hash. -/
def HASH_LENGTH : Nat := 32

/-- The `Error` enum of `hash.rs`.  `Temporary { error: String }` carries a
formatted message, `ConversionFailed(TryFromSliceError)` wraps the standard
array-conversion error (which carries no data of its own), `NotHexEncoded`
is nullary. -/
inductive Error where
  | Temporary (error : String)
  | ConversionFailed
  | NotHexEncoded
deriving DecidableEq, Repr

/-- Rust `pub struct Hash(pub [u8; 32]);` — the fixed 32-byte array is a list of
bytes together with its length invariant. -/
structure Hash where
  bytes : List Byte
  hlen : bytes.length = 32
deriving DecidableEq

/-- Two `Hash` values with equal byte content are equal (the length proof is
propositional). -/
theorem Hash.ext_bytes : ∀ {h₁ h₂ : Hash}, h₁.bytes = h₂.bytes → h₁ = h₂ := by
  intro ⟨b₁, p₁⟩ ⟨b₂, p₂⟩ h
  cases h
  rfl

/-- Rust `impl AsRef<[u8]> for Hash` — `fn as_ref(&self) -> &[u8] { &self.0 }`. -/
def Hash.asRef (h : Hash) : List Byte := h.bytes

/-- The message produced by
`format!("Unexpected tx hash length {}, expected {}", value.len(), HASH_LENGTH)`. -/
def lengthMismatchMsg (actual expected : Nat) : String :=
  "Unexpected tx hash length " ++ toString actual ++ ", expected " ++
    toString expected

/-- Rust `<[u8; 32]>::try_from(value)` — the standard slice-to-array conversion,
which succeeds exactly when the slice length is 32. -/
def sliceToArray32 (value : List Byte) : Option Hash :=
  if h : value.length = 32 then some ⟨value, h⟩ else none

/-- Rust `impl TryFrom<&[u8]> for Hash`: reject a slice whose length is not
`HASH_LENGTH` with `Error::Temporary` carrying the formatted length message,
then perform the array conversion, mapping its (unreachable) failure to
`Error::ConversionFailed`. -/
def Hash.tryFromSlice (value : List Byte) : Except Error Hash :=
  if value.length ≠ HASH_LENGTH then
    .error (.Temporary (lengthMismatchMsg value.length HASH_LENGTH))
  else
    match sliceToArray32 value with
    | some hash => .ok hash
    | none => .error .ConversionFailed

/-- One uppercase hexadecimal digit, as produced by Rust `{:02X}` formatting
of a nibble value (the fallthrough arm is unreachable for inputs below 16). -/
def hexDigitUpper (n : Nat) : Char :=
  match n with
  | 0 => '0' | 1 => '1' | 2 => '2' | 3 => '3'
  | 4 => '4' | 5 => '5' | 6 => '6' | 7 => '7'
  | 8 => '8' | 9 => '9' | 10 => 'A' | 11 => 'B'
  | 12 => 'C' | 13 => 'D' | 14 => 'E' | _ => 'F'

/-- Rust `write!(f, "{:02X}", byte)` — a byte prints as two uppercase hex digits,
high nibble first. -/
def byteToHexUpper (b : Byte) : List Char :=
  [hexDigitUpper (b.val / 16), hexDigitUpper (b.val % 16)]

/-- Rust `impl Display for Hash`: the characters written by the `fmt` loop, which
prints each byte in order with `{:02X}`. -/
def Hash.displayChars (h : Hash) : List Char :=
  (h.bytes.map byteToHexUpper).flatten

/-- The `Display` rendering of a `Hash` as a string. -/
def Hash.display (h : Hash) : String :=
  ⟨h.displayChars⟩

/-- The sixteen characters `{:02X}` can emit. -/
def upperHexAlphabet : List Char :=
  ['0', '1', '2', '3', '4', '5', '6', '7', '8', '9', 'A', 'B', 'C', 'D',
   'E', 'F']

/-- Modelled from the spec: the merkle-tree library's (`arse_merkle_tree`)
`H256` type, an external 32-byte hash with the "same 32-byte layout" as
`Hash`; its `From<[u8; 32]>`/`Into<[u8; 32]>` conversions move the bytes
unchanged. -/
structure H256 where
  bytes : List Byte
  hlen : bytes.length = 32
deriving DecidableEq

/-- Rust `impl From<Hash> for H256` — `hash.0.into()`. -/
def hashToH256 (hash : Hash) : H256 :=
  ⟨hash.bytes, hash.hlen⟩

/-- Rust `impl From<H256> for Hash` — `Hash(hash.into())`. -/
def h256ToHash (hash : H256) : Hash :=
  ⟨hash.bytes, hash.hlen⟩

/-! ### SHA-256

`Hash::sha256` calls `Sha256::digest` of the external `sha2` crate.  The
digest function itself is modelled from the spec ("computes the SHA-256
digest of the input"): the definitions below implement standard SHA-256
(FIPS 180-4) over byte lists, with 32-bit words as naturals reduced
modulo `2^32`.  The known-answer scenario of the spec (digest of the empty
input) checks this model against the published value. -/

/-- The value `2^32`, the modulus of 32-bit word arithmetic. -/
def wordMod : Nat := 4294967296

/-- Right rotation of a 32-bit word. -/
def rotr (n x : Nat) : Nat :=
  (x >>> n) ||| ((x <<< (32 - n)) % wordMod)

/-- Bitwise complement within 32 bits. -/
def notWord (x : Nat) : Nat := x ^^^ (wordMod - 1)

/-- The SHA-256 round constants (FIPS 180-4 §4.2.2). -/
def sha256K : List Nat :=
  [1116352408, 1899447441, 3049323471, 3921009573, 961987163,
   1508970993, 2453635748, 2870763221, 3624381080, 310598401,
   607225278, 1426881987, 1925078388, 2162078206, 2614888103,
   3248222580, 3835390401, 4022224774, 264347078, 604807628,
   770255983, 1249150122, 1555081692, 1996064986, 2554220882,
   2821834349, 2952996808, 3210313671, 3336571891, 3584528711,
   113926993, 338241895, 666307205, 773529912, 1294757372,
   1396182291, 1695183700, 1986661051, 2177026350, 2456956037,
   2730485921, 2820302411, 3259730800, 3345764771, 3516065817,
   3600352804, 4094571909, 275423344, 430227734, 506948616,
   659060556, 883997877, 958139571, 1322822218, 1537002063,
   1747873779, 1955562222, 2024104815, 2227730452, 2361852424,
   2428436474, 2756734187, 3204031479, 3329325298]

/-- The SHA-256 working state: eight 32-bit words. -/
structure SHAState where
  a : Nat
  b : Nat
  c : Nat
  d : Nat
  e : Nat
  f : Nat
  g : Nat
  h : Nat

/-- The SHA-256 initial hash value (FIPS 180-4 §5.3.3). -/
def sha256H0 : SHAState :=
  ⟨1779033703, 3144134277, 1013904242,
   2773480762, 1359893119, 2600822924,
   528734635, 1541459225⟩

/-- One SHA-256 round: consume one round constant and one schedule word. -/
def shaStep (s : SHAState) (kw : Nat × Nat) : SHAState :=
  let bigS1 := rotr 6 s.e ^^^ rotr 11 s.e ^^^ rotr 25 s.e
  let ch := (s.e &&& s.f) ^^^ (notWord s.e &&& s.g)
  let t1 := (s.h + bigS1 + ch + kw.1 + kw.2) % wordMod
  let bigS0 := rotr 2 s.a ^^^ rotr 13 s.a ^^^ rotr 22 s.a
  let mj := (s.a &&& s.b) ^^^ (s.a &&& s.c) ^^^ (s.b &&& s.c)
  let t2 := (bigS0 + mj) % wordMod
  ⟨(t1 + t2) % wordMod, s.a, s.b, s.c, (s.d + t1) % wordMod, s.e, s.f, s.g⟩

/-- Sigma-0 (lowercase) of the message schedule. -/
def smallSigma0 (x : Nat) : Nat := rotr 7 x ^^^ rotr 18 x ^^^ (x >>> 3)

/-- Sigma-1 (lowercase) of the message schedule. -/
def smallSigma1 (x : Nat) : Nat := rotr 17 x ^^^ rotr 19 x ^^^ (x >>> 10)

/-- The next message-schedule word from the current schedule. -/
def nextScheduleWord (ws : List Nat) : Nat :=
  let n := ws.length
  (smallSigma1 (ws.getD (n - 2) 0) + ws.getD (n - 7) 0 +
   smallSigma0 (ws.getD (n - 15) 0) + ws.getD (n - 16) 0) % wordMod

/-- Extend the 16 block words by the given number of schedule words. -/
def extendSchedule : Nat → List Nat → List Nat
  | 0, ws => ws
  | n + 1, ws => extendSchedule n (ws ++ [nextScheduleWord ws])

/-- Compress one 16-word block into the state (FIPS 180-4 §6.2.2). -/
def compressBlock (s : SHAState) (block : List Nat) : SHAState :=
  let w := extendSchedule 48 block
  let t := (sha256K.zip w).foldl shaStep s
  ⟨(s.a + t.a) % wordMod, (s.b + t.b) % wordMod, (s.c + t.c) % wordMod,
   (s.d + t.d) % wordMod, (s.e + t.e) % wordMod, (s.f + t.f) % wordMod,
   (s.g + t.g) % wordMod, (s.h + t.h) % wordMod⟩

/-- The message length in bits as eight big-endian bytes. -/
def lengthBytesBE (n : Nat) : List Nat :=
  [n / 2 ^ 56 % 256, n / 2 ^ 48 % 256, n / 2 ^ 40 % 256, n / 2 ^ 32 % 256,
   n / 2 ^ 24 % 256, n / 2 ^ 16 % 256, n / 2 ^ 8 % 256, n % 256]

/-- SHA-256 padding: a `0x80` byte, zero bytes up to 56 mod 64, then the
bit length. -/
def padMessage (msg : List Nat) : List Nat :=
  msg ++ 0x80 :: (List.replicate ((119 - msg.length % 64) % 64) 0 ++
    lengthBytesBE (msg.length * 8))

/-- Group bytes into big-endian 32-bit words. -/
def bytesToWords : List Nat → List Nat
  | b0 :: b1 :: b2 :: b3 :: rest =>
    (b0 * 2 ^ 24 + b1 * 2 ^ 16 + b2 * 2 ^ 8 + b3) :: bytesToWords rest
  | _ => []

/-- Split a word list into 16-word blocks (the first argument is fuel,
instantiated with the list length). -/
def chunk16 : Nat → List Nat → List (List Nat)
  | 0, _ => []
  | _ + 1, [] => []
  | n + 1, ws => ws.take 16 :: chunk16 n (ws.drop 16)

/-- Reduce a natural to a byte value. -/
def natToByte (n : Nat) : Byte := ⟨n % 256, Nat.mod_lt n (by decide)⟩

/-- A 32-bit word as four big-endian bytes. -/
def wordToBytesBE (w : Nat) : List Byte :=
  [natToByte (w / 2 ^ 24), natToByte (w / 2 ^ 16), natToByte (w / 2 ^ 8),
   natToByte w]

/-- The eight words of the SHA-256 digest of a byte list. -/
def sha256Words (data : List Byte) : List Nat :=
  let msg := padMessage (data.map Fin.val)
  let ws := bytesToWords msg
  let final := (chunk16 ws.length ws).foldl compressBlock sha256H0
  [final.a, final.b, final.c, final.d, final.e, final.f, final.g, final.h]

/-- The standard SHA-256 digest of a byte list, as 32 bytes. -/
def sha256Digest (data : List Byte) : List Byte :=
  ((sha256Words data).map wordToBytesBE).flatten

theorem join_map_wordToBytesBE_length (l : List Nat) :
    ((l.map wordToBytesBE).flatten).length = 4 * l.length := by
  induction l with
  | nil => simp
  | cons x xs ih => simp [wordToBytesBE, ih]; ring

theorem sha256Words_length (data : List Byte) :
    (sha256Words data).length = 8 := rfl

theorem sha256Digest_length (data : List Byte) :
    (sha256Digest data).length = 32 := by
  rw [sha256Digest, join_map_wordToBytesBE_length, sha256Words_length]

/-- Rust `Hash::sha256`: `Self(*Sha256::digest(data.as_ref()).as_ref())` — wrap
the 32 digest bytes. -/
def Hash.sha256 (data : List Byte) : Hash :=
  ⟨sha256Digest data, sha256Digest_length data⟩

/-! ### `HashString` — a hex encoded hash -/

/-- Rust `pub struct HashString { inner: [u8; HASH_LENGTH * 2] }` — a fixed
64-byte buffer. -/
structure HashString where
  inner : List Byte
  hlen : inner.length = HASH_LENGTH * 2
deriving DecidableEq

/-- Rust `impl Default for HashString` — `Self { inner: [0; HASH_LENGTH * 2] }`. -/
def HashString.defaultValue : HashString :=
  ⟨List.replicate (HASH_LENGTH * 2) 0, List.length_replicate _ _⟩

/-- Rust `impl Deref for HashString` —
`unsafe { std::str::from_utf8_unchecked(&self.inner) }`: the buffer bytes
reinterpreted as text.  For ASCII buffer bytes (the reachable case, see the
safety claim) each byte becomes the character with that code point. -/
def HashString.deref (hs : HashString) : List Char :=
  hs.inner.map (fun b => Char.ofNat b.val)

/-- The character test of the parser's `match`:
`'a'..='f' | 'A'..='F' | '0'..='9'`, written over the characters' code
points (`'a'` = 97, `'f'` = 102, `'A'` = 65, `'F'` = 70, `'0'` = 48,
`'9'` = 57). -/
def isHexDigitChar (c : Char) : Bool :=
  (97 ≤ c.toNat && c.toNat ≤ 102) || (65 ≤ c.toNat && c.toNat ≤ 70) ||
    (48 ≤ c.toNat && c.toNat ≤ 57)

/-- Rust `*slot = ch as u8` — a character stored into the byte buffer (Rust
`as u8` truncates the scalar value to 8 bits). -/
def charToByte (c : Char) : Byte := natToByte c.toNat

/-- The parser loop over `buf.iter_mut().zip(hash.chars().take(HEX_LEN))`:
checks each character against the hex alphabet, storing its byte; `none`
models the early `return Err(NotHexEncoded)` on the first bad character,
`some bs` the bytes written when every character passed (their count is the
final `hash_len`). -/
def hexScan : List Char → Option (List Byte)
  | [] => some []
  | c :: cs =>
    if isHexDigitChar c then (hexScan cs).map (charToByte c :: ·)
    else none

/-- Rust `impl TryFrom<&str> for HashString`: scan at most `HEX_LEN = 64`
characters; fail on a non-hex character; succeed only when exactly 64
characters were consumed. -/
def HashString.tryFromStr (hash : List Char) : Except Error HashString :=
  match hexScan (hash.take (HASH_LENGTH * 2)) with
  | none => .error .NotHexEncoded
  | some buf =>
    if hl : buf.length = HASH_LENGTH * 2 then .ok ⟨buf, hl⟩
    else .error .NotHexEncoded

/-- Rust `impl TryFrom<String> for HashString` — `hash.as_str().try_into()`,
funnelling through the same borrowed-view parser. -/
def HashString.tryFromString (hash : List Char) : Except Error HashString :=
  HashString.tryFromStr hash

/-! ### The trait derivations of `Hash`

The `#[derive(...)]` attribute on `pub struct Hash` in the source, kept as
data: these are the only comparison/ordering/hashing implementations the
type has (the module defines no `impl Ord`/`impl PartialOrd` anywhere). -/

/-- The derive list on `struct Hash` in `hash.rs`. -/
def hashDeriveList : List String :=
  ["Clone", "Debug", "Default", "Hash", "PartialEq", "Eq",
   "BorshSerialize", "BorshDeserialize", "BorshSchema", "Serialize",
   "Deserialize"]

/-- The derived `std::hash::Hash` implementation on `Hash(pub [u8; 32])`
feeds exactly the bytes of the single field to the hasher; the map/set hash
is a function of this data. -/
def Hash.hasherInput (h : Hash) : List Byte := h.bytes

/-- A sample hash value beginning with bytes `0x00, 0x01, 0xFF`. -/
def sampleHash : Hash :=
  ⟨(0 : Byte) :: (1 : Byte) :: (255 : Byte) :: List.replicate 29 0, by simp⟩

/-- The hex string of 64 `'0'` characters, as a `HashString` buffer. -/
def sampleHexString : HashString :=
  ⟨List.replicate 64 (charToByte '0'), by simp [HASH_LENGTH]⟩

/-! ### Helper lemmas -/

theorem hexScan_some :
    ∀ {l : List Char} {bs : List Byte}, hexScan l = some bs →
      bs = l.map charToByte ∧ ∀ c ∈ l, isHexDigitChar c = true := by
  intro l
  induction l with
  | nil =>
    intro bs h
    simp [hexScan] at h
    simp [← h]
  | cons c cs ih =>
    intro bs h
    simp only [hexScan] at h
    split at h
    · cases hrec : hexScan cs with
      | none => rw [hrec] at h; simp at h
      | some bs' =>
        rw [hrec] at h
        simp at h
        obtain ⟨hmap, hall⟩ := ih hrec
        subst h
        refine ⟨by simp [hmap], ?_⟩
        intro x hx
        rcases List.mem_cons.mp hx with hx | hx
        · subst hx; assumption
        · exact hall x hx
    · exact absurd h (by simp)

theorem hexScan_of_all_hex :
    ∀ {l : List Char}, (∀ c ∈ l, isHexDigitChar c = true) →
      hexScan l = some (l.map charToByte) := by
  intro l
  induction l with
  | nil => intro _; rfl
  | cons c cs ih =>
    intro h
    have hc : isHexDigitChar c = true := h c (List.mem_cons_self c cs)
    have hcs : hexScan cs = some (cs.map charToByte) :=
      ih fun x hx => h x (List.mem_cons_of_mem c hx)
    simp [hexScan, hc, hcs]

theorem hexScan_none_of_bad :
    ∀ {l : List Char} {c : Char}, c ∈ l → isHexDigitChar c = false →
      hexScan l = none := by
  intro l
  induction l with
  | nil => intro c h; simp at h
  | cons x xs ih =>
    intro c hmem hbad
    rcases List.mem_cons.mp hmem with hc | hc
    · subst hc; simp [hexScan, hbad]
    · simp only [hexScan]
      split
      · rw [ih hc hbad]; rfl
      · rfl

theorem isHexDigitChar_toNat_lt (c : Char) (h : isHexDigitChar c = true) :
    c.toNat < 128 := by
  simp only [isHexDigitChar, Bool.or_eq_true, Bool.and_eq_true,
    decide_eq_true_eq] at h
  omega

theorem charToByte_val (c : Char) (h : isHexDigitChar c = true) :
    (charToByte c).val = c.toNat := by
  have := isHexDigitChar_toNat_lt c h
  simp [charToByte, natToByte]
  omega

theorem ofNat_charToByte (c : Char) (h : isHexDigitChar c = true) :
    Char.ofNat (charToByte c).val = c := by
  rw [charToByte_val c h, Char.ofNat_toNat]

theorem hexDigitUpper_mem (n : Nat) : hexDigitUpper n ∈ upperHexAlphabet := by
  unfold hexDigitUpper
  split <;> decide

theorem flatten_hex_length (l : List Byte) :
    ((l.map byteToHexUpper).flatten).length = 2 * l.length := by
  induction l with
  | nil => simp
  | cons b bs ih => simp [byteToHexUpper, ih]; ring

theorem flatten_hex_group :
    ∀ (l : List Byte) (i : Nat), i < l.length →
      (((l.map byteToHexUpper).flatten).drop (2 * i)).take 2 =
        byteToHexUpper (l.getD i 0) := by
  intro l
  induction l with
  | nil => intro i hi; simp at hi
  | cons b bs ih =>
    intro i hi
    cases i with
    | zero => simp [byteToHexUpper]
    | succ j =>
      have h2 : 2 * (j + 1) = 2 * j + 1 + 1 := by ring
      simp only [List.map_cons, List.flatten_cons, byteToHexUpper, h2,
        List.cons_append, List.drop_succ_cons, List.getD_cons_succ]
      exact ih j (by simpa using hi)

/-! ### The claims -/

/-- C1: for every byte slice `b` with `len(b) ≠ 32`, `TryFrom<&[u8]>` fails,
and the error is the length-mismatch error (the code's `Temporary` variant,
which the spec's taxonomy calls LengthMismatch) whose message carries the
actual length `len(b)` and the expected length `32`. -/
theorem tryFromSlice_length_mismatch (b : List Byte) (h : b.length ≠ 32) :
    Hash.tryFromSlice b =
      .error (.Temporary (lengthMismatchMsg b.length HASH_LENGTH)) := by
  unfold Hash.tryFromSlice
  simp [HASH_LENGTH, h]

/-- C1 witness: the empty slice (length 0) is rejected with the message
carrying `0` and `32`. -/
theorem tryFromSlice_length_mismatch_witness :
    Hash.tryFromSlice [] =
      .error (.Temporary "Unexpected tx hash length 0, expected 32") := by
  rw [tryFromSlice_length_mismatch [] (by decide)]
  rfl

/-- C2: for every byte slice `b` with `len(b) = 32`, `TryFrom<&[u8]>`
succeeds and the `as_ref` byte view of the result equals `b`. -/
theorem tryFromSlice_ok (b : List Byte) (h : b.length = 32) :
    ∃ hsh, Hash.tryFromSlice b = .ok hsh ∧ hsh.asRef = b := by
  refine ⟨⟨b, h⟩, ?_, rfl⟩
  unfold Hash.tryFromSlice sliceToArray32
  simp [HASH_LENGTH, h]

/-- C2 witness: the all-zero 32-byte slice round-trips through construction
and `as_ref`. -/
theorem tryFromSlice_ok_witness :
    ∃ hsh, Hash.tryFromSlice (List.replicate 32 0) = .ok hsh ∧
      hsh.asRef = List.replicate 32 0 :=
  tryFromSlice_ok (List.replicate 32 0) (by simp)

/-- C3: `Hash::sha256` is deterministic, wraps exactly the standard SHA-256
digest of its input, and on the empty input renders as the published
uppercase digest of the empty string. -/
theorem sha256_standard :
    (∀ d₁ d₂ : List Byte, d₁ = d₂ → Hash.sha256 d₁ = Hash.sha256 d₂) ∧
    (∀ d : List Byte, (Hash.sha256 d).bytes = sha256Digest d) ∧
    (Hash.sha256 []).display =
      "E3B0C44298FC1C149AFBF4C8996FB92427AE41E4649B934CA495991B7852B855" := by
  refine ⟨fun d₁ d₂ h => by rw [h], fun d => rfl, ?_⟩
  rfl

/-- C3 witness: determinism and the known-answer digest at the empty
input. -/
theorem sha256_standard_witness :
    Hash.sha256 [] = Hash.sha256 [] ∧
    (Hash.sha256 []).display =
      "E3B0C44298FC1C149AFBF4C8996FB92427AE41E4649B934CA495991B7852B855" :=
  ⟨sha256_standard.1 [] [] rfl, sha256_standard.2.2⟩

/-- C4: the `Display` rendering of every hash has exactly 64 characters, all
of them uppercase hex digits, and the `i`-th two-character group is the
`{:02X}` rendering (high nibble first) of the `i`-th byte. -/
theorem display_uppercase_hex (h : Hash) :
    h.display.length = 64 ∧
    h.displayChars.length = 64 ∧
    (∀ c ∈ h.displayChars, c ∈ upperHexAlphabet) ∧
    (∀ i, i < 32 →
      (h.displayChars.drop (2 * i)).take 2 = byteToHexUpper (h.bytes.getD i 0)) := by
  have hlen : h.displayChars.length = 64 := by
    rw [Hash.displayChars, flatten_hex_length, h.hlen]
  refine ⟨?_, hlen, ?_, ?_⟩
  · show h.displayChars.length = 64
    exact hlen
  · intro c hc
    obtain ⟨l, hl, hcl⟩ := List.mem_flatten.mp hc
    obtain ⟨b, _, rfl⟩ := List.mem_map.mp hl
    simp only [byteToHexUpper, List.mem_cons, List.not_mem_nil, or_false]
      at hcl
    rcases hcl with rfl | rfl <;> exact hexDigitUpper_mem _
  · intro i hi
    exact flatten_hex_group h.bytes i (by rw [h.hlen]; exact hi)

/-- C4 witness: a hash beginning `0x00, 0x01, 0xFF` renders with length 64,
the digit `'0'` it contains is in the uppercase alphabet, and group 2 is
the `{:02X}` form of byte 2 (`FF`). -/
theorem display_uppercase_hex_witness :
    sampleHash.display.length = 64 ∧
    '0' ∈ upperHexAlphabet ∧
    (sampleHash.displayChars.drop (2 * 2)).take 2 =
      byteToHexUpper (sampleHash.bytes.getD 2 0) :=
  ⟨(display_uppercase_hex sampleHash).1,
   (display_uppercase_hex sampleHash).2.2.1 '0' (by decide),
   (display_uppercase_hex sampleHash).2.2.2 2 (by decide)⟩

/-- C5: converting a `Hash` into the merkle-tree library's `H256` and back
yields the original hash. -/
theorem h256_round_trip (h : Hash) : h256ToHash (hashToH256 h) = h := rfl

/-- C6: for every string whose first 64 characters are hex digits and whose
length is at least 64, `TryFrom<&str>` succeeds and the text view of the
result is exactly the first 64 characters; anything beyond the first 64
characters is never inspected. -/
theorem tryFromStr_accepts (s : List Char) (hlen : 64 ≤ s.length)
    (hhex : ∀ c ∈ s.take 64, isHexDigitChar c = true) :
    ∃ hs, HashString.tryFromStr s = .ok hs ∧ hs.deref = s.take 64 := by
  have h64 : HASH_LENGTH * 2 = 64 := rfl
  have htake : (s.take 64).length = 64 := by
    simp [List.length_take]
    omega
  have hscan : hexScan (s.take (HASH_LENGTH * 2)) =
      some ((s.take 64).map charToByte) := by
    rw [h64]
    exact hexScan_of_all_hex hhex
  have hbuflen : ((s.take 64).map charToByte).length = HASH_LENGTH * 2 := by
    rw [List.length_map, htake, h64]
  refine ⟨⟨(s.take 64).map charToByte, hbuflen⟩, ?_, ?_⟩
  · unfold HashString.tryFromStr
    rw [hscan]
    exact dif_pos hbuflen
  · show ((s.take 64).map charToByte).map (fun b => Char.ofNat b.val) =
      s.take 64
    rw [List.map_map]
    conv_rhs => rw [← List.map_id (s.take 64)]
    exact List.map_congr_left fun c hc => ofNat_charToByte c (hhex c hc)

/-- C6 witness: 64 `'0'` characters followed by a non-hex `'g'` parse
successfully, and the view is the 64 `'0'` characters. -/
theorem tryFromStr_accepts_witness :
    ∃ hs, HashString.tryFromStr (List.replicate 64 '0' ++ ['g']) = .ok hs ∧
      hs.deref = (List.replicate 64 '0' ++ ['g']).take 64 :=
  tryFromStr_accepts (List.replicate 64 '0' ++ ['g']) (by decide) (by decide)

/-- C7: `TryFrom<&str>` fails with `NotHexEncoded` whenever the input has
fewer than 64 characters or one of the first 64 characters is not a hex
digit; both failure modes yield the same error. -/
theorem tryFromStr_rejects (s : List Char)
    (h : s.length < 64 ∨ ∃ c ∈ s.take 64, isHexDigitChar c = false) :
    HashString.tryFromStr s = .error .NotHexEncoded := by
  have h64 : HASH_LENGTH * 2 = 64 := rfl
  rcases h with hshort | ⟨c, hc, hbad⟩
  · unfold HashString.tryFromStr
    cases hscan : hexScan (s.take (HASH_LENGTH * 2)) with
    | none => rfl
    | some buf =>
      have hlen : buf.length ≠ HASH_LENGTH * 2 := by
        rw [(hexScan_some hscan).1, List.length_map, h64,
          List.length_take]
        omega
      exact dif_neg hlen
  · unfold HashString.tryFromStr
    rw [show s.take (HASH_LENGTH * 2) = s.take 64 from by rw [h64],
      hexScan_none_of_bad hc hbad]

/-- C7 witness: the empty string, a non-hex character in front of 63 zeros,
and 63 zeros alone are all rejected with `NotHexEncoded`. -/
theorem tryFromStr_rejects_witness :
    HashString.tryFromStr [] = .error .NotHexEncoded ∧
    HashString.tryFromStr ('g' :: List.replicate 63 '0') =
      .error .NotHexEncoded ∧
    HashString.tryFromStr (List.replicate 63 '0') = .error .NotHexEncoded :=
  ⟨tryFromStr_rejects [] (Or.inl (by decide)),
   tryFromStr_rejects ('g' :: List.replicate 63 '0')
     (Or.inr ⟨'g', by decide, by decide⟩),
   tryFromStr_rejects (List.replicate 63 '0') (Or.inl (by decide))⟩

/-- C8 counterexample: the derive list of `struct Hash` — its complete set
of comparison and hashing trait derivations, and the module writes no
explicit ordering `impl` — contains neither `Ord` nor `PartialOrd`, so no
byte-wise (or any) ordering comparison exists on the type, contrary to the
claim's "h1 compares less than h2" clause. -/
theorem hash_derives_no_ordering :
    ¬("Ord" ∈ hashDeriveList ∨ "PartialOrd" ∈ hashDeriveList) := by decide

/-- C8 (amended): `Hash` equality is byte-wise — two hashes are equal
exactly when their 32-byte contents are equal — and the derived map/set
hash is computed from those same bytes; the code defines no ordering on
`Hash`. -/
theorem hash_eq_bytewise (h₁ h₂ : Hash) :
    (h₁ = h₂ ↔ h₁.asRef = h₂.asRef) ∧ h₁.hasherInput = h₁.asRef :=
  ⟨⟨fun h => by rw [h], Hash.ext_bytes⟩, rfl⟩

/-- C9: the default `HashString` buffer is 64 zero *bytes* (not 64 ASCII
`'0'` characters), and feeding its own text view to the parser fails with
`NotHexEncoded`. -/
theorem default_hashString_not_parsable :
    HashString.defaultValue.inner = List.replicate 64 (0 : Byte) ∧
    HashString.defaultValue.inner ≠ List.replicate 64 (charToByte '0') ∧
    HashString.tryFromStr HashString.defaultValue.deref =
      .error .NotHexEncoded :=
  ⟨rfl, by decide, rfl⟩

/-- C10: every reachable `HashString` buffer holds only ASCII bytes — zero
bytes for the default, hex-digit codes for parsed values — so the unchecked
UTF-8 view is sound and always yields exactly 64 characters. -/
theorem hashString_view_sound :
    ((∀ b ∈ HashString.defaultValue.inner, b.val < 128) ∧
      HashString.defaultValue.deref.length = 64) ∧
    ∀ s hs, HashString.tryFromStr s = .ok hs →
      (∀ b ∈ hs.inner, b.val < 128 ∧ isHexDigitChar (Char.ofNat b.val) = true) ∧
      hs.deref.length = 64 := by
  refine ⟨⟨?_, ?_⟩, ?_⟩
  · intro b hb
    rw [show HashString.defaultValue.inner = List.replicate 64 0 from rfl]
      at hb
    rw [(List.eq_of_mem_replicate hb)]
    decide
  · show (HashString.defaultValue.inner.map _).length = 64
    rw [List.length_map, HashString.defaultValue.hlen]
    rfl
  intro s hs h
  unfold HashString.tryFromStr at h
  split at h
  · exact absurd h (by simp)
  next buf hscan =>
    obtain ⟨hmap, hall⟩ := hexScan_some hscan
    split at h
    next hl =>
      have hhs : hs = ⟨buf, hl⟩ := by
        cases h
        rfl
      subst hhs
      constructor
      · intro b hb
        simp only [hmap] at hb
        obtain ⟨c, hcmem, rfl⟩ := List.mem_map.mp hb
        have hhex := hall c hcmem
        have hlt : (charToByte c).val < 128 := by
          rw [charToByte_val c hhex]
          exact isHexDigitChar_toNat_lt c hhex
        exact ⟨hlt, by rw [ofNat_charToByte c hhex]; exact hhex⟩
      · show (HashString.deref _).length = 64
        simp [HashString.deref, hl, HASH_LENGTH]
    next => exact absurd h (by simp)

/-- C10 witness: the parse of 64 `'0'` characters yields a buffer of ASCII
hex-digit bytes whose view has 64 characters. -/
theorem hashString_view_sound_witness :
    (∀ b ∈ sampleHexString.inner,
      b.val < 128 ∧ isHexDigitChar (Char.ofNat b.val) = true) ∧
    sampleHexString.deref.length = 64 :=
  hashString_view_sound.2 (List.replicate 64 '0') sampleHexString rfl
